import Mathlib

/-!  Shallow embedding of the standalone Bing search module
(`bing_search.py`): the request builder `request`, the HTML response
parser `response`, and the library helpers they rely on (query-string
handling from `urllib.parse`, `base64.urlsafe_b64decode`, the UTF-8
text codec).  Python strings are modelled as Lean `String` / `List Char`,
Python `dict`s as association lists preserving insertion order, absent
keys as `Option`, and `Logger.warning` output (printed text) as an
explicit list of warning messages returned alongside the result.
`Logger.debug` is a no-op in the source and `Logger.error` messages embed
exception reprs, so neither is tracked in the warning list.  -/

namespace BingSearch

/-- Whitespace stripped by Python's `str.strip()` (the ASCII whitespace
characters; the module only strips text coming from HTML banners and
snippets). -/
def py_space (c : Char) : Bool :=
  c == ' ' || c == '\t' || c == '\n' || c == '\r' || c == '\x0b' || c == '\x0c'

/-- Python `str.strip()`. -/
def py_strip (s : String) : String :=
  String.mk (((s.data.dropWhile py_space).reverse.dropWhile py_space).reverse)

/-- Python `int(...)` applied to a non-empty all-digit string; on the empty
string it yields `0`, matching the source's "leave the counter at its
initial value 0" behaviour when no digits were found. -/
def digits_to_nat (cs : List Char) : Nat :=
  cs.foldl (fun n c => n * 10 + (c.toNat - 48)) 0

/-- Python `str.startswith`: `list_starts pat s` is true when `pat` is a
prefix of `s`. -/
def list_starts : List Char → List Char → Bool
  | [], _ => true
  | _ :: _, [] => false
  | p :: ps, c :: cs => p == c && list_starts ps cs

/-- Python `str.startswith` on `String`s. -/
def py_startswith (s pat : String) : Bool :=
  list_starts pat.data s.data

/-- Python `dict.get` over an insertion-ordered association list with
string values. -/
def dict_get (m : List (String × String)) (k : String) : Option String :=
  match m with
  | [] => none
  | (k', v) :: rest => if k' = k then some v else dict_get rest k

/-- Python `dict.get` over an association list whose values are lists of
strings (the shape `urllib.parse.parse_qs` produces). -/
def dict_get_qs (m : List (String × List String)) (k : String) : Option (List String) :=
  match m with
  | [] => none
  | (k', v) :: rest => if k' = k then some v else dict_get_qs rest k

/-- Python `dict[k] = v` on an insertion-ordered association list: replace
the value if the key is present, otherwise append the binding. -/
def dict_set (m : List (String × String)) (k v : String) : List (String × String) :=
  match m with
  | [] => [(k, v)]
  | (k', v') :: rest => if k' = k then (k, v) :: rest else (k', v') :: dict_set rest k v

/-- Value of a hexadecimal digit character, if it is one. -/
def hex_val (c : Char) : Option Nat :=
  if '0' ≤ c ∧ c ≤ '9' then some (c.toNat - 48)
  else if 'a' ≤ c ∧ c ≤ 'f' then some (c.toNat - 87)
  else if 'A' ≤ c ∧ c ≤ 'F' then some (c.toNat - 55)
  else none

/-- UTF-8 encoding of one Unicode code point (as used by Python's
`str.encode()` / percent-encoding of non-ASCII characters). -/
def utf8_encode_cp (c : Nat) : List Nat :=
  if c < 0x80 then [c]
  else if c < 0x800 then [0xC0 + c / 64, 0x80 + c % 64]
  else if c < 0x10000 then [0xE0 + c / 4096, 0x80 + c / 64 % 64, 0x80 + c % 64]
  else [0xF0 + c / 262144, 0x80 + c / 4096 % 64, 0x80 + c / 64 % 64, 0x80 + c % 64]

/-- UTF-8 encoding of a list of code points. -/
def utf8_encode_codes (cs : List Nat) : List Nat :=
  (cs.map utf8_encode_cp).flatten

/-- Python `str.encode()` (UTF-8 encoding of a string's code points). -/
def utf8_encode (s : String) : List Nat :=
  utf8_encode_codes (s.data.map Char.toNat)

/-- Strict UTF-8 decoding of a byte sequence to code points, as Python's
`bytes.decode()` with the default strict error handler: rejects overlong
forms, surrogates, code points above `0x10FFFF`, and truncated or
malformed sequences. -/
def utf8_decode_list (l : List Nat) : Option (List Nat) :=
  match l with
  | [] => some []
  | b :: rest =>
    if b < 0x80 then (utf8_decode_list rest).map (b :: ·)
    else if 0xC2 ≤ b ∧ b < 0xE0 then
      match rest.head? with
      | some b1 =>
        if 0x80 ≤ b1 ∧ b1 < 0xC0 then
          (utf8_decode_list (rest.drop 1)).map (((b - 0xC0) * 64 + (b1 - 0x80)) :: ·)
        else none
      | none => none
    else if 0xE0 ≤ b ∧ b < 0xF0 then
      match rest.head?, (rest.drop 1).head? with
      | some b1, some b2 =>
        if (0x80 ≤ b1 ∧ b1 < 0xC0) ∧ (0x80 ≤ b2 ∧ b2 < 0xC0) ∧
            0x800 ≤ (b - 0xE0) * 4096 + (b1 - 0x80) * 64 + (b2 - 0x80) ∧
            ((b - 0xE0) * 4096 + (b1 - 0x80) * 64 + (b2 - 0x80) < 0xD800 ∨
              0xDFFF < (b - 0xE0) * 4096 + (b1 - 0x80) * 64 + (b2 - 0x80)) then
          (utf8_decode_list (rest.drop 2)).map
            (((b - 0xE0) * 4096 + (b1 - 0x80) * 64 + (b2 - 0x80)) :: ·)
        else none
      | _, _ => none
    else if 0xF0 ≤ b ∧ b < 0xF5 then
      match rest.head?, (rest.drop 1).head?, (rest.drop 2).head? with
      | some b1, some b2, some b3 =>
        if (0x80 ≤ b1 ∧ b1 < 0xC0) ∧ (0x80 ≤ b2 ∧ b2 < 0xC0) ∧ (0x80 ≤ b3 ∧ b3 < 0xC0) ∧
            0x10000 ≤ (b - 0xF0) * 262144 + (b1 - 0x80) * 4096 + (b2 - 0x80) * 64 + (b3 - 0x80) ∧
            (b - 0xF0) * 262144 + (b1 - 0x80) * 4096 + (b2 - 0x80) * 64 + (b3 - 0x80) < 0x110000 then
          (utf8_decode_list (rest.drop 3)).map
            (((b - 0xF0) * 262144 + (b1 - 0x80) * 4096 + (b2 - 0x80) * 64 + (b3 - 0x80)) :: ·)
        else none
      | _, _, _ => none
    else none
termination_by l.length
decreasing_by all_goals (simp [List.length_drop] <;> omega)

/-- Python `bytes.decode()`: strict UTF-8 decoding of bytes to a string. -/
def utf8_decode_str (bs : List Nat) : Option String :=
  (utf8_decode_list bs).map (fun cs => String.mk (cs.map Char.ofNat))

/-- Lenient UTF-8 decoding used by `urllib.parse.unquote`'s
`errors='replace'` handler: undecodable bytes are replaced by U+FFFD.
(Model note: one replacement char is emitted per rejected byte; CPython's
handler can group several bytes of one invalid sequence into a single
replacement, a difference that no code path of this module depends on.) -/
def utf8_decode_replace : List Nat → List Char
  | [] => []
  | b :: rest =>
    if b < 0x80 then Char.ofNat b :: utf8_decode_replace rest
    else if 0xC2 ≤ b ∧ b < 0xE0 then
      match rest with
      | b1 :: r =>
        if 0x80 ≤ b1 ∧ b1 < 0xC0 then
          Char.ofNat ((b - 0xC0) * 64 + (b1 - 0x80)) :: utf8_decode_replace r
        else '�' :: utf8_decode_replace (b1 :: r)
      | [] => ['�']
    else if 0xE0 ≤ b ∧ b < 0xF0 then
      match rest with
      | b1 :: b2 :: r =>
        if (0x80 ≤ b1 ∧ b1 < 0xC0) ∧ (0x80 ≤ b2 ∧ b2 < 0xC0) ∧
            0x800 ≤ (b - 0xE0) * 4096 + (b1 - 0x80) * 64 + (b2 - 0x80) ∧
            ((b - 0xE0) * 4096 + (b1 - 0x80) * 64 + (b2 - 0x80) < 0xD800 ∨
              0xDFFF < (b - 0xE0) * 4096 + (b1 - 0x80) * 64 + (b2 - 0x80)) then
          Char.ofNat ((b - 0xE0) * 4096 + (b1 - 0x80) * 64 + (b2 - 0x80)) ::
            utf8_decode_replace r
        else '�' :: utf8_decode_replace (b1 :: b2 :: r)
      | [_] => ['�', '�']
      | [] => ['�']
    else if 0xF0 ≤ b ∧ b < 0xF5 then
      match rest with
      | b1 :: b2 :: b3 :: r =>
        if (0x80 ≤ b1 ∧ b1 < 0xC0) ∧ (0x80 ≤ b2 ∧ b2 < 0xC0) ∧ (0x80 ≤ b3 ∧ b3 < 0xC0) ∧
            0x10000 ≤ (b - 0xF0) * 262144 + (b1 - 0x80) * 4096 + (b2 - 0x80) * 64 + (b3 - 0x80) ∧
            (b - 0xF0) * 262144 + (b1 - 0x80) * 4096 + (b2 - 0x80) * 64 + (b3 - 0x80) < 0x110000 then
          Char.ofNat
              ((b - 0xF0) * 262144 + (b1 - 0x80) * 4096 + (b2 - 0x80) * 64 + (b3 - 0x80)) ::
            utf8_decode_replace r
        else '�' :: utf8_decode_replace (b1 :: b2 :: b3 :: r)
      | [_, _] => ['�', '�', '�']
      | [_] => ['�', '�']
      | [] => ['�']
    else '�' :: utf8_decode_replace rest

/-- Percent-decoding scanner of `urllib.parse.unquote`: `%XX` hex pairs
are collected into byte runs (`acc`) which are UTF-8-decoded with the
replace error handler; every other character is passed through. A `%`
not followed by two hex digits is passed through literally. -/
def unquote_go : Nat → List Nat → List Char → List Char
  | 0, acc, _ => utf8_decode_replace acc
  | _ + 1, acc, [] => utf8_decode_replace acc
  | fuel + 1, acc, c :: rest =>
    if c = '%' then
      match hex_val (rest.headD ' '), hex_val ((rest.drop 1).headD ' ') with
      | some a, some b => unquote_go fuel (acc ++ [a * 16 + b]) (rest.drop 2)
      | _, _ => utf8_decode_replace acc ++ c :: unquote_go fuel [] rest
    else utf8_decode_replace acc ++ c :: unquote_go fuel [] rest

/-- Python `urllib.parse.unquote_plus` on character lists: `+` becomes a
space, then percent-sequences are decoded.  (The fuel argument of the
scanner only bounds its recursion; every step consumes at least one
character, so one unit of fuel per character always suffices.) -/
def unquote_plus_chars (cs : List Char) : List Char :=
  unquote_go (cs.length + 1) [] (cs.map (fun c => if c = '+' then ' ' else c))

/-- Characters `urllib.parse.quote_plus` never escapes (Python's
`_ALWAYS_SAFE`, with the default empty `safe` set). -/
def always_safe (c : Char) : Bool :=
  ('A' ≤ c && c ≤ 'Z') || ('a' ≤ c && c ≤ 'z') || ('0' ≤ c && c ≤ '9') ||
    c == '_' || c == '.' || c == '-' || c == '~'

/-- Uppercase hexadecimal digit for a value below 16. -/
def hex_digit (n : Nat) : Char :=
  if n < 10 then Char.ofNat (48 + n) else Char.ofNat (55 + n)

/-- Python `urllib.parse.quote_plus`: safe characters pass through, a
space becomes `+`, anything else is `%XX`-escaped over its UTF-8 bytes. -/
def quote_plus (s : String) : String :=
  String.mk ((s.data.map (fun c =>
    if always_safe c then [c]
    else if c = ' ' then ['+']
    else ((utf8_encode_cp c.toNat).map
      (fun b => ['%', hex_digit (b / 16), hex_digit (b % 16)])).flatten)).flatten)

/-- Python `urllib.parse.urlencode` over an insertion-ordered parameter
mapping (default `quote_via=quote_plus`). -/
def urlencode (qp : List (String × String)) : String :=
  String.intercalate "&" (qp.map (fun p => quote_plus p.1 ++ "=" ++ quote_plus p.2))

/-- Base64 value of one data character.  `urlsafe_b64decode` first
translates `-`/`_` to `+`/`/` and then decodes with the standard
alphabet, so all four of `+`, `/`, `-`, `_` carry data here. -/
def b64_char_val (c : Char) : Option Nat :=
  if 'A' ≤ c ∧ c ≤ 'Z' then some (c.toNat - 65)
  else if 'a' ≤ c ∧ c ≤ 'z' then some (c.toNat - 71)
  else if '0' ≤ c ∧ c ≤ '9' then some (c.toNat + 4)
  else if c = '+' ∨ c = '-' then some 62
  else if c = '/' ∨ c = '_' then some 63
  else none

/-- URL-safe base64 data character for a 6-bit value. -/
def b64_val_char (v : Nat) : Char :=
  if v < 26 then Char.ofNat (65 + v)
  else if v < 52 then Char.ofNat (97 + (v - 26))
  else if v < 62 then Char.ofNat (48 + (v - 52))
  else if v = 62 then '-' else '_'

/-- Symbol stream seen by the base64 decoder: data characters map to
their 6-bit values, `=` is kept as padding (`none`), and characters
outside the alphabet are discarded, as `binascii.a2b_base64` does in
non-strict mode (the `validate=False` default of `b64decode`). -/
def b64_syms (cs : List Char) : List (Option Nat) :=
  cs.filterMap (fun c =>
    if c = '=' then some none
    else match b64_char_val c with
      | some v => some (some v)
      | none => none)

/-- Quad-wise base64 decoding of the symbol stream.  A quad of four data
symbols yields three bytes; a final quad ending in `==` or `=` yields one
or two bytes and stops (trailing symbols after padding are ignored, as in
`binascii.a2b_base64`); any other shape — including a stream whose
length is not a multiple of four — is a `binascii.Error`. -/
def b64_quads : List (Option Nat) → Option (List Nat)
  | [] => some []
  | some a :: some b :: some c :: some d :: rest =>
    (b64_quads rest).map
      (fun bs => (a * 4 + b / 16) :: (b % 16 * 16 + c / 4) :: (c % 4 * 64 + d) :: bs)
  | some a :: some b :: none :: none :: _ => some [a * 4 + b / 16]
  | some a :: some b :: some c :: none :: _ =>
    some [a * 4 + b / 16, b % 16 * 16 + c / 4]
  | _ => none

/-- Python `base64.urlsafe_b64decode` on a character list, yielding the
decoded bytes or `none` where the library raises `binascii.Error`. -/
def urlsafe_b64decode (cs : List Char) : Option (List Nat) :=
  b64_quads (b64_syms cs)

/-- Padded URL-safe base64 encoding of a byte list (the encoding whose
output `base64.urlsafe_b64encode` produces). -/
def b64_encode_bytes : List Nat → List Char
  | [] => []
  | [x] => [b64_val_char (x / 4), b64_val_char (x % 4 * 16), '=', '=']
  | [x, y] =>
    [b64_val_char (x / 4), b64_val_char (x % 4 * 16 + y / 16), b64_val_char (y % 16 * 4), '=']
  | x :: y :: z :: rest =>
    b64_val_char (x / 4) :: b64_val_char (x % 4 * 16 + y / 16) ::
      b64_val_char (y % 16 * 4 + z / 64) :: b64_val_char (z % 64) :: b64_encode_bytes rest

/-- URL-safe base64 encoding of a string's UTF-8 bytes. -/
def urlsafe_b64encode_str (s : String) : String :=
  String.mk (b64_encode_bytes (utf8_encode s))

/-- Query component of `urllib.parse.urlparse(url)`: the part after the
first `?` of the part before the first `#` (empty when there is no `?`),
which is what `urlparse` yields for the absolute `https` hrefs this
module feeds it. -/
def url_query (cs : List Char) : List Char :=
  let no_frag := cs.takeWhile (· ≠ '#')
  if '?' ∈ no_frag then (no_frag.dropWhile (· ≠ '?')).tail else []

/-- Python `qs.split('&')` (the default separator of `parse_qsl`). -/
def split_amp : List Char → List (List Char)
  | [] => [[]]
  | c :: rest =>
    if c = '&' then [] :: split_amp rest
    else
      match split_amp rest with
      | f :: fs => (c :: f) :: fs
      | [] => [[c]]

/-- Python `field.split('=', 1)` when it produces two parts: the text
before the first `=` and everything after it; `none` when the field
contains no `=` (such fields are skipped by `parse_qsl`). -/
def split_first_eq : List Char → Option (List Char × List Char)
  | [] => none
  | '=' :: rest => some ([], rest)
  | c :: rest => (split_first_eq rest).map (fun p => (c :: p.1, p.2))

/-- Python `urllib.parse.parse_qsl` with its defaults: split on `&`,
skip empty fields, skip fields without `=`, skip blank values
(`keep_blank_values=False`), and `unquote_plus` names and values. -/
def parse_qsl (q : List Char) : List (String × String) :=
  (split_amp q).foldr (fun f acc =>
    if f = [] then acc
    else match split_first_eq f with
      | none => acc
      | some (k, v) =>
        if v = [] then acc
        else (String.mk (unquote_plus_chars k), String.mk (unquote_plus_chars v)) :: acc) []

/-- One step of `parse_qs`'s dict building: append the value to the
key's list, or add a new binding at the end. -/
def add_qs (d : List (String × List String)) (k : String) (v : String) :
    List (String × List String) :=
  if (dict_get_qs d k).isSome then
    d.map (fun p => if p.1 = k then (p.1, p.2 ++ [v]) else p)
  else d ++ [(k, [v])]

/-- Python `urllib.parse.parse_qs`: the pairs of `parse_qsl`, grouped
into a dict of value lists in first-occurrence key order. -/
def parse_qs (q : List Char) : List (String × List String) :=
  (parse_qsl q).foldl (fun d p => add_qs d p.1 p.2) []

/-- The simplified `EngineTraits` of the script: locale lookup tables
plus a default market code. -/
structure EngineTraits where
  languages : List (String × String)
  regions : List (String × String)
  all_locale : String
deriving DecidableEq

/-- `EngineTraits.get_region`: Bing market code for a locale string,
with a default. -/
def EngineTraits.get_region (t : EngineTraits) (locale d : String) : String :=
  (dict_get t.regions locale).getD d

/-- `EngineTraits.get_language`: Bing language code for a locale string,
with a default. -/
def EngineTraits.get_language (t : EngineTraits) (locale d : String) : String :=
  (dict_get t.languages locale).getD d

/-- The `params` dict flowing through `request`: each key the function
reads or writes is a field, `none` meaning the key is absent. -/
structure Params where
  pageno : Option Int
  searxng_locale : Option String
  time_range : Option String
  url : Option String
  headers : Option (List (String × String))
  cookies : Option (List (String × String))
deriving DecidableEq

/-- `base_url` of the script: Bing (Web) search URL. -/
def base_url : String := "https://www.bing.com/search"

/-- `_page_offset`: the 1-based index of the first result of a page,
`(pageno - 1) * 10 + 1`. -/
def page_offset (pageno : Int) : Int :=
  (pageno - 1) * 10 + 1

/-- `set_bing_cookies`: ensure a cookie dict exists and set the
`_EDGE_CD` and `_EDGE_S` market/language cookies. -/
def set_bing_cookies (params : Params) (engine_language_code engine_market_code : String) :
    Params :=
  let c := params.cookies.getD []
  let c := dict_set c "_EDGE_CD" ("m=" ++ engine_market_code ++ "&u=" ++ engine_language_code)
  let c := dict_set c "_EDGE_S" ("mkt=" ++ engine_market_code ++ "&ui=" ++ engine_language_code)
  { params with cookies := some c }

/-- Default browser-emulating headers injected by `request` when the
caller supplied none. -/
def default_headers : List (String × String) :=
  [("User-Agent", "Mozilla/5.0 (Windows NT 10.0; Win64; x64) AppleWebKit/537.36 (KHTML, like Gecko) Chrome/91.0.4472.124 Safari/537.36"),
   ("Accept", "text/html,application/xhtml+xml,application/xml;q=0.9,image/webp,*/*;q=0.8"),
   ("Accept-Language", "en-US,en;q=0.5"),
   ("Accept-Encoding", "gzip, deflate, br"),
   ("DNT", "1"),
   ("Connection", "keep-alive"),
   ("Upgrade-Insecure-Requests", "1"),
   ("Sec-GPC", "1"),
   ("Cache-Control", "max-age=0")]

/-- The `query_params` dict built by `request`: the query under `q` and
`pq`, the `first` offset for pages beyond the first, and the `FORM`
page-state marker (`PERE` on page 2, `PERE<page-2>` beyond). -/
def bing_query_params (query : String) (page : Int) : List (String × String) :=
  [("q", query), ("pq", query)] ++
    (if page > 1 then [("first", toString (page_offset page))] else []) ++
    (if page = 2 then [("FORM", "PERE")]
     else if page > 2 then [("FORM", "PERE" ++ toString (page - 2))] else [])

/-- The `time_ranges_map` of `request`, given the current day number
since the Unix epoch. -/
def time_ranges_map (unix_day : Int) : List (String × String) :=
  [("day", "1"), ("week", "2"), ("month", "3"),
   ("year", "5_" ++ toString (unix_day - 365) ++ "_" ++ toString unix_day)]

/-- `request`: assemble URL, headers and cookies for a Bing query.
`now` models the value of `time.time()` in whole seconds; the returned
list collects the `logger.warning` messages the call prints. -/
def request (tr : EngineTraits) (now : Nat) (query : String) (params : Params) :
    Params × List String :=
  let bing_market_code := tr.get_region (params.searxng_locale.getD "en-US") tr.all_locale
  let bing_language_code :=
    tr.get_language (params.searxng_locale.getD "en-US") bing_market_code
  let params := set_bing_cookies params bing_language_code bing_market_code
  let page := params.pageno.getD 1
  let params :=
    { params with url := some (base_url ++ "?" ++ urlencode (bing_query_params query page)) }
  let pw : Params × List String :=
    match params.time_range with
    | some t =>
      if t ≠ "" then
        let unix_day : Int := (now : Int) / 86400
        match dict_get (time_ranges_map unix_day) t with
        | some v =>
          ({ params with
              url := some ((params.url.getD "") ++ "&filters=ex1:\"ez" ++ v ++ "\"") }, [])
        | none => (params, ["Unsupported time_range specified: " ++ t])
      else (params, [])
    | none => (params, [])
  let params := pw.1
  let params :=
    match params.headers with
    | none => { params with headers := some default_headers }
    | some _ => params
  (params, pw.2)

/-- Child `<span>` element of a snippet paragraph, in lxml's data model:
its `class` attribute, its own text, and its `tail` — the text that
follows the element inside the parent, which lxml stores on the element
itself, so removing the element from the tree removes the tail with it. -/
structure SpanElem where
  cls : String
  text : String
  tail : String
deriving DecidableEq

/-- A `<p>` element of a result block, in lxml's data model: its leading
text and its child `<span>` elements in document order, each carrying
its tail text. -/
structure Paragraph where
  text : String
  spans : List SpanElem
deriving DecidableEq

/-- Text content of a paragraph (lxml `text_content()`): the element's
own text followed by, for each child, that child's text and tail. -/
def Paragraph.text_content (p : Paragraph) : String :=
  p.text ++ String.join (p.spans.map (fun s => s.text ++ s.tail))

/-- The `h2/a` heading anchor of a result block: its optional `href`
attribute and its text content. -/
structure LinkElem where
  href : Option String
  text_content : String
deriving DecidableEq

/-- One `li.b_algo` result block: the heading anchor found by
`.//h2/a` (or `none`) and the `.//p` snippet paragraphs. -/
structure ResultBlock where
  link : Option LinkElem
  paragraphs : List Paragraph
deriving DecidableEq

/-- The parsed Bing answer page, as `response` consumes it through its
XPath queries: the `li.b_algo` result blocks and the text nodes under
`span.sb_count`. -/
structure Dom where
  blocks : List ResultBlock
  sb_count_texts : List String
deriving DecidableEq

/-- `extract_text` of the script on a list of elements, given their text
contents: join with single spaces and strip. -/
def extract_text (parts : List String) : String :=
  py_strip (String.intercalate " " parts)

/-- The icon-removal loop of `response`:
`icon_element.getparent().remove(icon_element)` deletes every
`span[@class="algoSlug_icon"]` from the paragraph before its text is
extracted.  In lxml's data model the removed element's tail text is
stored on the element and disappears from the tree together with it
(unlike `drop_tree`, which would preserve the tail). -/
def remove_icon_spans (p : Paragraph) : Paragraph :=
  { p with spans := p.spans.filter (fun s => s.cls ≠ "algoSlug_icon") }

/-- One result item as `response` accumulates them
(`{'url': ..., 'title': ..., 'content': ...}`). -/
structure SearchResultItem where
  url : Option String
  title : String
  content : String
deriving DecidableEq

/-- Element of the list `response` returns: a search result item, or the
trailing `{'number_of_results': ...}` summary dict. -/
inductive ResponseItem where
  | item (r : SearchResultItem)
  | summary (number_of_results : Nat)
deriving DecidableEq

/-- Payload decoding for a Bing tracking URL's `u` parameter: skip the
2-character `a1` marker, restore base64 padding to a multiple of four,
then URL-safe base64 decode and UTF-8 decode. -/
def decode_payload (v : String) : Option String :=
  let actual := v.data.drop 2
  let padded := actual ++ List.replicate ((4 - actual.length % 4) % 4) '='
  (urlsafe_b64decode padded).bind (fun bs => utf8_decode_str bs)

/-- Redirect decoding step of `response` (lines handling
`https://www.bing.com/ck/a?` hrefs): returns the possibly rewritten URL
and any warning printed.  A falsy (`None` or empty) href or a non-tracking
href passes through; a missing `u` parameter warns and keeps the href; a
failed base64/UTF-8 decode keeps the href (the logged message there is a
`logger.error`, not tracked). -/
def decode_redirect_url (url : Option String) : Option String × List String :=
  match url with
  | none => (none, [])
  | some u =>
    if u ≠ "" ∧ py_startswith u "https://www.bing.com/ck/a?" then
      match dict_get_qs (parse_qs (url_query u.data)) "u" with
      | some (v :: _) =>
        match decode_payload v with
        | some dec => (some dec, [])
        | none => (some u, [])
      | _ => (some u, ["Could not parse 'u' parameter from Bing redirect URL: " ++ u])
    else (some u, [])

/-- The result-extraction loop of `response`: blocks without a heading
anchor are skipped; otherwise title, badge-stripped snippet text and the
redirect-decoded URL form an item.  Warnings are collected in loop
order. -/
def extract_items : List ResultBlock → List SearchResultItem × List String
  | [] => ([], [])
  | b :: rest =>
    let r := extract_items rest
    match b.link with
    | none => r
    | some l =>
      let title := extract_text [l.text_content]
      let cleaned := b.paragraphs.map remove_icon_spans
      let content := extract_text (cleaned.map Paragraph.text_content)
      let uw := decode_redirect_url l.href
      (⟨uw.1, title, content⟩ :: r.1, uw.2 ++ r.2)

/-- Leftmost split of the banner string at `re.split(r'-\x7bdash digits\x7d', s, maxsplit=1)`:
at the first `-` that is followed by a digit, cut out the maximal digit
run and return the two surrounding parts; otherwise the whole string. -/
def re_split_dash_digits : List Char → List (List Char)
  | [] => [[]]
  | c :: rest =>
    if c == '-' && (match rest with | d :: _ => d.isDigit | [] => false) then
      [[], rest.dropWhile Char.isDigit]
    else
      match re_split_dash_digits rest with
      | p :: ps => (c :: p) :: ps
      | [] => [[c]]

/-- Python `'of' in s` (substring containment of the literal `of`). -/
def contains_of : List Char → Bool
  | 'o' :: 'f' :: _ => true
  | _ :: rest => contains_of rest
  | [] => false

/-- Python `s.split('of')[-1]`: the text after the last `of` occurrence
in the left-to-right non-overlapping scan (the string itself when `of`
does not occur). -/
def after_of : List Char → List Char
  | 'o' :: 'f' :: rest => after_of rest
  | [] => []
  | c :: rest => if contains_of (c :: rest) then after_of rest else c :: rest

/-- Banner parsing of `response` (the `sb_count` section): the start
index shown on the page (default 1) and the total result estimate
(0 when no digits are found). -/
def parse_sb_count (cs : List Char) : Nat × Nat :=
  if '-' ∈ cs then
    let parts := re_split_dash_digits cs
    let first_num := (parts.headD []).filter Char.isDigit
    let start := if first_num ≠ [] then digits_to_nat first_num else 1
    let potential := if contains_of cs then after_of cs else parts.getLastD []
    (start, digits_to_nat (potential.filter Char.isDigit))
  else
    (1, digits_to_nat (cs.filter Char.isDigit))

/-- Banner of a parsed page: `(start index, total estimate)` from the
joined, stripped `span.sb_count` text. -/
def banner_of (d : Dom) : Nat × Nat :=
  parse_sb_count (py_strip (String.join d.sb_count_texts)).data

/-- Warning printed when Bing substituted page 1 for an out-of-range
page request. -/
def warn_page1 (p e : Int) (s t : Nat) : String :=
  "Bing returned page 1 instead of requested page " ++ toString p ++
    ". Expected start offset: " ++ toString e ++ ", but page shows start at " ++
    toString s ++ ". This might be because the requested page is beyond the total available results (" ++
    toString t ++ ")."

/-- Warning printed on any other page-offset mismatch. -/
def warn_mismatch (p e : Int) (s : Nat) : String :=
  "Page number mismatch detected: Requested page " ++ toString p ++
    " (expected offset " ++ toString e ++
    "), but the content seems to be from a page starting at offset " ++ toString s ++ "."

/-- `response`: parse a Bing answer page (given as the `Dom` its XPath
queries see) for a requested page number; returns the result list — the
extracted items plus, on all but the discarded-page path, a trailing
`number_of_results` summary — together with the warnings printed. -/
def response (d : Dom) (requested_pageno : Int) : List ResponseItem × List String :=
  let iw := extract_items d.blocks
  let results := iw.1.map ResponseItem.item
  match d.blocks with
  | [] => (results ++ [ResponseItem.summary 0], iw.2)
  | _ :: _ =>
    let st := banner_of d
    let current_page_start_index := st.1
    let total_results_count := st.2
    let expected_page_start_offset := page_offset requested_pageno
    if requested_pageno > 1 ∧ (current_page_start_index : Int) ≠ expected_page_start_offset then
      if expected_page_start_offset > (total_results_count : Int) ∧ total_results_count > 0 ∧
          current_page_start_index = 1 then
        ([], iw.2 ++ [warn_page1 requested_pageno expected_page_start_offset
            current_page_start_index total_results_count])
      else
        (results ++ [ResponseItem.summary total_results_count],
          iw.2 ++ [warn_mismatch requested_pageno expected_page_start_offset
            current_page_start_index])
    else (results ++ [ResponseItem.summary total_results_count], iw.2)

/-! ### Supporting lemmas -/

theorem data_mk (cs : List Char) : (String.mk cs).data = cs := rfl

theorem str_append_merge (A x y z w : String) (h : x ++ (y ++ z) = w) :
    A ++ x ++ y ++ z = A ++ w := by
  rw [String.append_assoc A x y, String.append_assoc A (x ++ y) z,
    String.append_assoc x y z, h]

theorem utf8_encode_cp_lt (c : Nat) (h : c < 0x110000) :
    ∀ b ∈ utf8_encode_cp c, b < 256 := by
  intro b hb
  simp only [utf8_encode_cp] at hb
  split_ifs at hb with h1 h2 h3
  · simp only [List.mem_singleton] at hb; omega
  · simp only [List.mem_cons, List.not_mem_nil, or_false] at hb
    rcases hb with rfl | rfl <;> omega
  · simp only [List.mem_cons, List.not_mem_nil, or_false] at hb
    rcases hb with rfl | rfl | rfl <;> omega
  · simp only [List.mem_cons, List.not_mem_nil, or_false] at hb
    rcases hb with rfl | rfl | rfl | rfl <;> omega

theorem utf8_decode_encode_cp (c : Nat)
    (h : c < 0xD800 ∨ (0xDFFF < c ∧ c < 0x110000)) (bs : List Nat) :
    utf8_decode_list (utf8_encode_cp c ++ bs) = (utf8_decode_list bs).map (c :: ·) := by
  rcases Nat.lt_or_ge c 0x80 with h1 | h1
  · rw [utf8_encode_cp, if_pos h1]
    simp only [List.cons_append, List.nil_append, utf8_decode_list]
    rw [if_pos h1]
  · rcases Nat.lt_or_ge c 0x800 with h2 | h2
    · rw [utf8_encode_cp, if_neg (by omega), if_pos h2]
      simp only [List.cons_append, List.nil_append, utf8_decode_list,
        List.head?_cons, List.drop_succ_cons, List.drop_zero]
      have e1 : ¬ (0xC0 + c / 64 < 0x80) := by omega
      have e2 : 0xC2 ≤ 0xC0 + c / 64 ∧ 0xC0 + c / 64 < 0xE0 := by omega
      have e3 : 0x80 ≤ 0x80 + c % 64 ∧ 0x80 + c % 64 < 0xC0 := by omega
      rw [if_neg e1, if_pos e2, if_pos e3]
      have hv : (0xC0 + c / 64 - 0xC0) * 64 + (0x80 + c % 64 - 0x80) = c := by omega
      rw [hv]
    · rcases Nat.lt_or_ge c 0x10000 with h3 | h3
      · rw [utf8_encode_cp, if_neg (by omega), if_neg (by omega), if_pos h3]
        simp only [List.cons_append, List.nil_append, utf8_decode_list,
          List.head?_cons, List.drop_succ_cons, List.drop_zero]
        have e1 : ¬ (0xE0 + c / 4096 < 0x80) := by omega
        have e2 : ¬ (0xC2 ≤ 0xE0 + c / 4096 ∧ 0xE0 + c / 4096 < 0xE0) := by omega
        have e3 : 0xE0 ≤ 0xE0 + c / 4096 ∧ 0xE0 + c / 4096 < 0xF0 := by omega
        have e4 : (0x80 ≤ 0x80 + c / 64 % 64 ∧ 0x80 + c / 64 % 64 < 0xC0) ∧
            (0x80 ≤ 0x80 + c % 64 ∧ 0x80 + c % 64 < 0xC0) ∧
            0x800 ≤ (0xE0 + c / 4096 - 0xE0) * 4096 + (0x80 + c / 64 % 64 - 0x80) * 64 +
              (0x80 + c % 64 - 0x80) ∧
            ((0xE0 + c / 4096 - 0xE0) * 4096 + (0x80 + c / 64 % 64 - 0x80) * 64 +
                (0x80 + c % 64 - 0x80) < 0xD800 ∨
              0xDFFF < (0xE0 + c / 4096 - 0xE0) * 4096 + (0x80 + c / 64 % 64 - 0x80) * 64 +
                (0x80 + c % 64 - 0x80)) := by omega
        rw [if_neg e1, if_neg e2, if_pos e3, if_pos e4]
        have hv : (0xE0 + c / 4096 - 0xE0) * 4096 + (0x80 + c / 64 % 64 - 0x80) * 64 +
            (0x80 + c % 64 - 0x80) = c := by omega
        rw [hv]
      · rw [utf8_encode_cp, if_neg (by omega), if_neg (by omega), if_neg (by omega)]
        simp only [List.cons_append, List.nil_append, utf8_decode_list,
          List.head?_cons, List.drop_succ_cons, List.drop_zero]
        have hcap : c < 0x110000 := by omega
        have e1 : ¬ (0xF0 + c / 262144 < 0x80) := by omega
        have e2 : ¬ (0xC2 ≤ 0xF0 + c / 262144 ∧ 0xF0 + c / 262144 < 0xE0) := by omega
        have e3 : ¬ (0xE0 ≤ 0xF0 + c / 262144 ∧ 0xF0 + c / 262144 < 0xF0) := by omega
        have e4 : 0xF0 ≤ 0xF0 + c / 262144 ∧ 0xF0 + c / 262144 < 0xF5 := by omega
        have e5 : (0x80 ≤ 0x80 + c / 4096 % 64 ∧ 0x80 + c / 4096 % 64 < 0xC0) ∧
            (0x80 ≤ 0x80 + c / 64 % 64 ∧ 0x80 + c / 64 % 64 < 0xC0) ∧
            (0x80 ≤ 0x80 + c % 64 ∧ 0x80 + c % 64 < 0xC0) ∧
            0x10000 ≤ (0xF0 + c / 262144 - 0xF0) * 262144 + (0x80 + c / 4096 % 64 - 0x80) * 4096 +
              (0x80 + c / 64 % 64 - 0x80) * 64 + (0x80 + c % 64 - 0x80) ∧
            (0xF0 + c / 262144 - 0xF0) * 262144 + (0x80 + c / 4096 % 64 - 0x80) * 4096 +
              (0x80 + c / 64 % 64 - 0x80) * 64 + (0x80 + c % 64 - 0x80) < 0x110000 := by omega
        rw [if_neg e1, if_neg e2, if_neg e3, if_pos e4, if_pos e5]
        have hv : (0xF0 + c / 262144 - 0xF0) * 262144 + (0x80 + c / 4096 % 64 - 0x80) * 4096 +
            (0x80 + c / 64 % 64 - 0x80) * 64 + (0x80 + c % 64 - 0x80) = c := by omega
        rw [hv]

theorem utf8_decode_encode_codes (cs : List Nat)
    (h : ∀ c ∈ cs, c < 0xD800 ∨ (0xDFFF < c ∧ c < 0x110000)) :
    utf8_decode_list (utf8_encode_codes cs) = some cs := by
  induction cs with
  | nil => simp [utf8_encode_codes, utf8_decode_list]
  | cons c rest ih =>
    have hc := h c (List.mem_cons_self c rest)
    have hrest : ∀ x ∈ rest, x < 0xD800 ∨ (0xDFFF < x ∧ x < 0x110000) :=
      fun x hx => h x (List.mem_cons_of_mem c hx)
    simp only [utf8_encode_codes, List.map_cons, List.flatten_cons]
    rw [utf8_decode_encode_cp c hc, ← utf8_encode_codes, ih hrest]
    rfl

theorem char_valid_cp (c : Char) :
    c.toNat < 0xD800 ∨ (0xDFFF < c.toNat ∧ c.toNat < 0x110000) := by
  have h := c.valid
  rcases h with h | ⟨ha, hb⟩
  · left; exact h
  · right; exact ⟨ha, hb⟩

theorem utf8_decode_str_encode (s : String) :
    utf8_decode_str (utf8_encode s) = some s := by
  rw [utf8_decode_str, utf8_encode,
    utf8_decode_encode_codes (s.data.map Char.toNat)
      (by intro c hc
          obtain ⟨ch, _, rfl⟩ := List.mem_map.mp hc
          exact char_valid_cp ch)]
  have hmap : List.map Char.ofNat (List.map Char.toNat s.data) = s.data := by
    rw [List.map_map]
    calc List.map (Char.ofNat ∘ Char.toNat) s.data
        = List.map id s.data :=
          List.map_congr_left (fun a _ => by simp [Char.ofNat_toNat])
      _ = s.data := List.map_id s.data
  simp only [Option.map_some']
  rw [hmap]

theorem utf8_encode_bytes_lt (s : String) : ∀ b ∈ utf8_encode s, b < 256 := by
  intro b hb
  rw [utf8_encode, utf8_encode_codes] at hb
  obtain ⟨l, hl, hbl⟩ := List.mem_flatten.mp hb
  obtain ⟨cp, hcp, rfl⟩ := List.mem_map.mp hl
  obtain ⟨ch, _, rfl⟩ := List.mem_map.mp hcp
  have := char_valid_cp ch
  exact utf8_encode_cp_lt ch.toNat (by omega) b hbl

theorem b64_val_char_val : ∀ v, v < 64 → b64_char_val (b64_val_char v) = some v := by
  decide

theorem b64_val_char_props : ∀ v, v < 64 →
    b64_val_char v ≠ '=' ∧ b64_val_char v ≠ '#' ∧ b64_val_char v ≠ '?' ∧
    b64_val_char v ≠ '&' ∧ b64_val_char v ≠ '%' ∧ b64_val_char v ≠ '+' := by
  decide

theorem b64_syms_cons_data (c : Char) (v : Nat) (cs : List Char)
    (hv : b64_char_val c = some v) (hne : c ≠ '=') :
    b64_syms (c :: cs) = some v :: b64_syms cs := by
  simp [b64_syms, List.filterMap_cons, hne, hv]

theorem b64_syms_cons_pad (cs : List Char) : b64_syms ('=' :: cs) = none :: b64_syms cs := by
  simp [b64_syms, List.filterMap_cons]

theorem b64_roundtrip (bs : List Nat) (h : ∀ b ∈ bs, b < 256) :
    b64_quads (b64_syms (b64_encode_bytes bs)) = some bs := by
  induction bs using b64_encode_bytes.induct with
  | case1 => rfl
  | case2 x =>
    have hx : x < 256 := h x (by simp)
    rw [b64_encode_bytes,
      b64_syms_cons_data _ (x / 4) _ (b64_val_char_val _ (by omega))
        ((b64_val_char_props _ (by omega)).1),
      b64_syms_cons_data _ (x % 4 * 16) _ (b64_val_char_val _ (by omega))
        ((b64_val_char_props _ (by omega)).1),
      b64_syms_cons_pad, b64_syms_cons_pad]
    have hv : x / 4 * 4 + x % 4 * 16 / 16 = x := by omega
    calc b64_quads (some (x / 4) :: some (x % 4 * 16) :: none :: none :: b64_syms [])
        = some [x / 4 * 4 + x % 4 * 16 / 16] := rfl
      _ = some [x] := by rw [hv]
  | case3 x y =>
    have hx : x < 256 := h x (by simp)
    have hy : y < 256 := h y (by simp)
    rw [b64_encode_bytes,
      b64_syms_cons_data _ (x / 4) _ (b64_val_char_val _ (by omega))
        ((b64_val_char_props _ (by omega)).1),
      b64_syms_cons_data _ (x % 4 * 16 + y / 16) _ (b64_val_char_val _ (by omega))
        ((b64_val_char_props _ (by omega)).1),
      b64_syms_cons_data _ (y % 16 * 4) _ (b64_val_char_val _ (by omega))
        ((b64_val_char_props _ (by omega)).1),
      b64_syms_cons_pad]
    have hv1 : x / 4 * 4 + (x % 4 * 16 + y / 16) / 16 = x := by omega
    have hv2 : (x % 4 * 16 + y / 16) % 16 * 16 + y % 16 * 4 / 4 = y := by omega
    calc b64_quads (some (x / 4) :: some (x % 4 * 16 + y / 16) :: some (y % 16 * 4) ::
          none :: b64_syms [])
        = some [x / 4 * 4 + (x % 4 * 16 + y / 16) / 16,
            (x % 4 * 16 + y / 16) % 16 * 16 + y % 16 * 4 / 4] := rfl
      _ = some [x, y] := by rw [hv1, hv2]
  | case4 x y z rest ih =>
    have hx : x < 256 := h x (by simp)
    have hy : y < 256 := h y (by simp)
    have hz : z < 256 := h z (by simp)
    have hrest : ∀ b ∈ rest, b < 256 := fun b hb => h b (by simp [hb])
    rw [b64_encode_bytes,
      b64_syms_cons_data _ (x / 4) _ (b64_val_char_val _ (by omega))
        ((b64_val_char_props _ (by omega)).1),
      b64_syms_cons_data _ (x % 4 * 16 + y / 16) _ (b64_val_char_val _ (by omega))
        ((b64_val_char_props _ (by omega)).1),
      b64_syms_cons_data _ (y % 16 * 4 + z / 64) _ (b64_val_char_val _ (by omega))
        ((b64_val_char_props _ (by omega)).1),
      b64_syms_cons_data _ (z % 64) _ (b64_val_char_val _ (by omega))
        ((b64_val_char_props _ (by omega)).1)]
    simp only [b64_quads]
    rw [ih hrest]
    have hv1 : x / 4 * 4 + (x % 4 * 16 + y / 16) / 16 = x := by omega
    have hv2 : (x % 4 * 16 + y / 16) % 16 * 16 + (y % 16 * 4 + z / 64) / 4 = y := by omega
    have hv3 : (y % 16 * 4 + z / 64) % 4 * 64 + z % 64 = z := by omega
    simp [hv1, hv2, hv3]

theorem b64_encode_len_mod (bs : List Nat) : (b64_encode_bytes bs).length % 4 = 0 := by
  induction bs using b64_encode_bytes.induct with
  | case1 => rfl
  | case2 x => simp [b64_encode_bytes]
  | case3 x y => simp [b64_encode_bytes]
  | case4 x y z rest ih =>
    simp only [b64_encode_bytes, List.length_cons]
    omega

theorem b64_encode_chars (bs : List Nat) (h : ∀ b ∈ bs, b < 256) :
    ∀ c ∈ b64_encode_bytes bs, c = '=' ∨ ∃ v, v < 64 ∧ c = b64_val_char v := by
  induction bs using b64_encode_bytes.induct with
  | case1 => simp [b64_encode_bytes]
  | case2 x =>
    have hx : x < 256 := h x (by simp)
    intro c hc
    simp only [b64_encode_bytes, List.mem_cons, List.not_mem_nil, or_false] at hc
    rcases hc with rfl | rfl | rfl | rfl
    · exact Or.inr ⟨x / 4, by omega, rfl⟩
    · exact Or.inr ⟨x % 4 * 16, by omega, rfl⟩
    · exact Or.inl rfl
    · exact Or.inl rfl
  | case3 x y =>
    have hx : x < 256 := h x (by simp)
    have hy : y < 256 := h y (by simp)
    intro c hc
    simp only [b64_encode_bytes, List.mem_cons, List.not_mem_nil, or_false] at hc
    rcases hc with rfl | rfl | rfl | rfl
    · exact Or.inr ⟨x / 4, by omega, rfl⟩
    · exact Or.inr ⟨x % 4 * 16 + y / 16, by omega, rfl⟩
    · exact Or.inr ⟨y % 16 * 4, by omega, rfl⟩
    · exact Or.inl rfl
  | case4 x y z rest ih =>
    have hx : x < 256 := h x (by simp)
    have hy : y < 256 := h y (by simp)
    have hz : z < 256 := h z (by simp)
    have hrest : ∀ b ∈ rest, b < 256 := fun b hb => h b (by simp [hb])
    intro c hc
    simp only [b64_encode_bytes, List.mem_cons] at hc
    rcases hc with rfl | rfl | rfl | rfl | hc
    · exact Or.inr ⟨x / 4, by omega, rfl⟩
    · exact Or.inr ⟨x % 4 * 16 + y / 16, by omega, rfl⟩
    · exact Or.inr ⟨y % 16 * 4 + z / 64, by omega, rfl⟩
    · exact Or.inr ⟨z % 64, by omega, rfl⟩
    · exact ih hrest c hc

theorem b64_encode_no_special (bs : List Nat) (h : ∀ b ∈ bs, b < 256) :
    ∀ c ∈ b64_encode_bytes bs,
      c ≠ '#' ∧ c ≠ '?' ∧ c ≠ '&' ∧ c ≠ '%' ∧ c ≠ '+' := by
  intro c hc
  rcases b64_encode_chars bs h c hc with rfl | ⟨v, hv, rfl⟩
  · decide
  · obtain ⟨_, p2, p3, p4, p5, p6⟩ := b64_val_char_props v hv
    exact ⟨p2, p3, p4, p5, p6⟩

theorem takeWhile_all (p : Char → Bool) (l : List Char) (h : ∀ c ∈ l, p c) :
    l.takeWhile p = l := by
  induction l with
  | nil => rfl
  | cons a t ih =>
    rw [List.takeWhile_cons, if_pos (h a (by simp))]
    rw [ih (fun c hc => h c (by simp [hc]))]

theorem takeWhile_append_all (p : Char → Bool) (l1 l2 : List Char) (h : ∀ c ∈ l1, p c) :
    (l1 ++ l2).takeWhile p = l1 ++ l2.takeWhile p := by
  induction l1 with
  | nil => simp
  | cons a t ih =>
    rw [List.cons_append, List.takeWhile_cons, if_pos (h a (by simp))]
    rw [ih (fun c hc => h c (by simp [hc]))]
    rfl

theorem dropWhile_append_all (p : Char → Bool) (l1 l2 : List Char) (h : ∀ c ∈ l1, p c) :
    (l1 ++ l2).dropWhile p = l2.dropWhile p := by
  induction l1 with
  | nil => simp
  | cons a t ih =>
    rw [List.cons_append, List.dropWhile_cons, if_pos (h a (by simp))]
    exact ih (fun c hc => h c (by simp [hc]))

theorem list_starts_append (ps ts : List Char) : list_starts ps (ps ++ ts) = true := by
  induction ps with
  | nil => rfl
  | cons a t ih => simp [list_starts, ih]

theorem unquote_go_clean (cs : List Char) (h : ∀ c ∈ cs, c ≠ '%') :
    ∀ fuel, cs.length ≤ fuel → unquote_go (fuel + 1) [] cs = cs := by
  induction cs with
  | nil => intro fuel _; rfl
  | cons c rest ih =>
    intro fuel hf
    have hc : c ≠ '%' := h c (by simp)
    rcases fuel with _ | n
    · simp at hf
    · rw [unquote_go, if_neg hc]
      rw [show utf8_decode_replace [] = [] from rfl, List.nil_append]
      rw [ih (fun x hx => h x (by simp [hx])) n (by simp at hf; omega)]

theorem unquote_plus_clean (cs : List Char) (h : ∀ c ∈ cs, c ≠ '+' ∧ c ≠ '%') :
    unquote_plus_chars cs = cs := by
  rw [unquote_plus_chars]
  have hmap : cs.map (fun c => if c = '+' then ' ' else c) = cs := by
    calc cs.map (fun c => if c = '+' then ' ' else c) = cs.map id :=
          List.map_congr_left (fun a ha => by simp [(h a ha).1])
      _ = cs := List.map_id cs
  rw [hmap]
  exact unquote_go_clean cs (fun c hc => (h c hc).2) cs.length (Nat.le_refl _)

theorem split_amp_no_amp (cs : List Char) (h : ∀ c ∈ cs, c ≠ '&') :
    split_amp cs = [cs] := by
  induction cs with
  | nil => rfl
  | cons c rest ih =>
    rw [split_amp, if_neg (h c (by simp))]
    rw [ih (fun x hx => h x (by simp [hx]))]

theorem url_query_tracking (enc : List Char) (henc : ∀ c ∈ enc, c ≠ '#' ∧ c ≠ '?') :
    url_query ("https://www.bing.com/ck/a?u=a1".data ++ enc) =
      'u' :: '=' :: 'a' :: '1' :: enc := by
  rw [url_query]
  have hnf : ("https://www.bing.com/ck/a?u=a1".data ++ enc).takeWhile (fun c => c ≠ '#') =
      "https://www.bing.com/ck/a?u=a1".data ++ enc := by
    rw [takeWhile_append_all _ _ _ (by decide),
      takeWhile_all _ enc (fun c hc => by simp [(henc c hc).1])]
  rw [hnf]
  rw [if_pos (List.mem_append_left enc (by decide : '?' ∈ "https://www.bing.com/ck/a?u=a1".data))]
  have hsplit : "https://www.bing.com/ck/a?u=a1".data =
      "https://www.bing.com/ck/a".data ++ '?' :: "u=a1".data := by decide
  rw [hsplit, List.append_assoc]
  rw [dropWhile_append_all _ _ _ (by decide), List.cons_append]
  rw [List.dropWhile_cons, if_neg (by simp)]
  rfl

theorem parse_qs_u (enc : List Char) (hne : ∀ c ∈ enc, c ≠ '&' ∧ c ≠ '+' ∧ c ≠ '%') :
    parse_qs ('u' :: '=' :: 'a' :: '1' :: enc) =
      [("u", [String.mk ('a' :: '1' :: enc)])] := by
  rw [parse_qs, parse_qsl]
  rw [split_amp_no_amp _ (by
    intro c hc
    simp only [List.mem_cons] at hc
    rcases hc with rfl | rfl | rfl | rfl | hc
    · decide
    · decide
    · decide
    · decide
    · exact (hne c hc).1)]
  simp only [List.foldr_cons, List.foldr_nil]
  rw [if_neg (by simp)]
  rw [show split_first_eq ('u' :: '=' :: 'a' :: '1' :: enc) =
    some (['u'], 'a' :: '1' :: enc) from rfl]
  simp only []
  rw [if_neg (by simp)]
  rw [unquote_plus_clean ['u'] (by decide)]
  rw [unquote_plus_clean ('a' :: '1' :: enc) (by
    intro c hc
    simp only [List.mem_cons] at hc
    rcases hc with rfl | rfl | hc
    · decide
    · decide
    · exact ⟨(hne c hc).2.1, (hne c hc).2.2⟩)]
  simp only [List.foldl_cons, List.foldl_nil, add_qs, dict_get_qs]
  simp

theorem decode_payload_roundtrip (d : String) :
    decode_payload (String.mk ('a' :: '1' :: b64_encode_bytes (utf8_encode d))) = some d := by
  rw [decode_payload]
  simp only [data_mk, List.drop_succ_cons, List.drop_zero]
  have hlen : (4 - (b64_encode_bytes (utf8_encode d)).length % 4) % 4 = 0 := by
    rw [b64_encode_len_mod]
  rw [hlen, show List.replicate 0 '=' = ([] : List Char) from rfl, List.append_nil]
  simp only [urlsafe_b64decode]
  rw [b64_roundtrip _ (utf8_encode_bytes_lt d)]
  simp only [Option.some_bind]
  exact utf8_decode_str_encode d

/-! ### Claim theorems -/

/-- C1: for every page number `p ≥ 2`, `request` puts the offset
parameter `first` into the URL's query parameters with value exactly
`(p-1)*10+1`, and the page-state marker `FORM` with value `PERE` when
`p = 2` and `PERE` followed by the decimal rendering of `p-2` when
`p > 2`; for `p = 1` neither `first` nor `FORM` appears.  The final
conjunct ties the query-parameter dict to the URL `request` returns. -/
theorem bing_pagination_params (q : String) (p : Int) :
    (p ≥ 2 → dict_get (bing_query_params q p) "first" = some (toString ((p - 1) * 10 + 1))) ∧
    (p = 2 → dict_get (bing_query_params q p) "FORM" = some "PERE") ∧
    (p > 2 → dict_get (bing_query_params q p) "FORM" = some ("PERE" ++ toString (p - 2))) ∧
    (p = 1 → dict_get (bing_query_params q p) "first" = none ∧
      dict_get (bing_query_params q p) "FORM" = none) ∧
    (∀ (tr : EngineTraits) (now : Nat) (params : Params),
      params.pageno = some p → params.time_range = none →
        (request tr now q params).1.url =
          some (base_url ++ "?" ++ urlencode (bing_query_params q p))) := by
  refine ⟨?_, ?_, ?_, ?_, ?_⟩
  · intro hp
    by_cases h2 : p = 2
    · subst h2
      simp [bing_query_params, page_offset, dict_get]
    · have h2' : p > 2 := by omega
      simp [bing_query_params, page_offset, dict_get, if_pos (show p > 1 by omega),
        if_neg h2, if_pos h2']
  · intro h2; subst h2
    simp [bing_query_params, dict_get]
  · intro h2
    simp [bing_query_params, dict_get, if_pos (show p > 1 by omega),
      if_neg (show ¬ p = 2 by omega), if_pos h2]
  · intro h1; subst h1
    simp [bing_query_params, dict_get]
  · intro tr now params hpg htr
    cases hh : params.headers <;> simp [request, set_bing_cookies, hpg, htr, hh]

/-- C9: `request` is frame-preserving on the caller's `params`: a
caller-supplied `headers` entry is returned exactly as supplied, default
headers are installed only when no `headers` entry exists, and the
pre-existing keys other than `url`, `headers` and `cookies` (`pageno`,
`time_range`, `searxng_locale`) come back unchanged. -/
theorem request_frame_preserves_params (tr : EngineTraits) (now : Nat) (q : String)
    (params : Params) :
    (∀ h, params.headers = some h → (request tr now q params).1.headers = some h) ∧
    (params.headers = none → (request tr now q params).1.headers = some default_headers) ∧
    (request tr now q params).1.pageno = params.pageno ∧
    (request tr now q params).1.time_range = params.time_range ∧
    (request tr now q params).1.searxng_locale = params.searxng_locale := by
  obtain ⟨pg, loc, trg, u, hd, ck⟩ := params
  rcases trg with _ | t
  · rcases hd with _ | h <;> simp [request, set_bing_cookies]
  · by_cases ht : t = ""
    · subst ht
      rcases hd with _ | h <;> simp [request, set_bing_cookies]
    · rcases hget : dict_get (time_ranges_map ((now : Int) / 86400)) t with _ | v <;>
        rcases hd with _ | h <;>
          simp [request, set_bing_cookies, ht, hget]

/-- C10: the extractor emits an item with `url = none` for a block whose
heading anchor exists but has no `href` attribute (the tracking check and
redirect decode are skipped), and skips a block entirely only when the
heading anchor itself is absent. -/
theorem extract_missing_href_emits_item (l : LinkElem) (ps : List Paragraph)
    (rest : List ResultBlock) (h : l.href = none) :
    (extract_items (⟨some l, ps⟩ :: rest)).1 =
      ⟨none, extract_text [l.text_content],
        extract_text ((ps.map remove_icon_spans).map Paragraph.text_content)⟩ ::
        (extract_items rest).1 ∧
    (extract_items (⟨none, ps⟩ :: rest)).1 = (extract_items rest).1 := by
  constructor
  · simp [extract_items, decode_redirect_url, h]
  · simp [extract_items]

/-- C8 (code bug): the removal loop deletes every badge span — but, in
lxml's data model, together with the span's tail text.  For the claim's
example paragraph `<span class="algoSlug_icon">Web</span>Some real text`
the snippet text `Some real text` is the span's tail, so the program's
item carries the empty content, not `Some real text`: the badge removal
silently destroys the legitimate snippet text that follows the badge,
against the spec and the code's own "clean up snippets" comment. -/
theorem snippet_badge_tail_dropped :
    (extract_items
        [⟨some ⟨some "http://x", "T"⟩,
          [⟨"", [⟨"algoSlug_icon", "Web", "Some real text"⟩]⟩]⟩]).1.map
      SearchResultItem.content = [""] ∧
    remove_icon_spans ⟨"", [⟨"algoSlug_icon", "Web", "Some real text"⟩]⟩ = ⟨"", []⟩ := by
  decide

/-- Witness for C1 at the query `x`, pages 3 and 1, and a concrete
params dict for the URL conjunct. -/
theorem bing_pagination_params_witness :
    dict_get (bing_query_params "x" 3) "first" = some (toString ((3 - 1) * 10 + 1 : Int)) ∧
    dict_get (bing_query_params "x" 3) "FORM" = some ("PERE" ++ toString (3 - 2 : Int)) ∧
    dict_get (bing_query_params "x" 1) "first" = none ∧
    (request ⟨[], [], "en-us"⟩ 0 "x"
        ⟨some 3, none, none, none, none, none⟩).1.url =
      some (base_url ++ "?" ++ urlencode (bing_query_params "x" 3)) :=
  ⟨(bing_pagination_params "x" 3).1 (by decide),
   (bing_pagination_params "x" 3).2.2.1 (by decide),
   ((bing_pagination_params "x" 1).2.2.2.1 rfl).1,
   (bing_pagination_params "x" 3).2.2.2.2 ⟨[], [], "en-us"⟩ 0
     ⟨some 3, none, none, none, none, none⟩ rfl rfl⟩

/-- Witness for C9 at a concrete params dict carrying caller headers. -/
theorem request_frame_preserves_params_witness :
    (request ⟨[], [], "en-us"⟩ 0 "q"
        ⟨some 2, some "en-US", some "week", none, some [("X", "1")], none⟩).1.headers =
      some [("X", "1")] ∧
    (request ⟨[], [], "en-us"⟩ 0 "q"
        ⟨some 2, some "en-US", some "week", none, some [("X", "1")], none⟩).1.pageno =
      some 2 :=
  ⟨(request_frame_preserves_params ⟨[], [], "en-us"⟩ 0 "q"
      ⟨some 2, some "en-US", some "week", none, some [("X", "1")], none⟩).1 [("X", "1")] rfl,
   (request_frame_preserves_params ⟨[], [], "en-us"⟩ 0 "q"
      ⟨some 2, some "en-US", some "week", none, some [("X", "1")], none⟩).2.2.1⟩

/-- Witness for C10 at a heading anchor without `href`. -/
theorem extract_missing_href_emits_item_witness :
    (extract_items [⟨some ⟨none, "T"⟩, []⟩]).1 =
      ⟨none, extract_text ["T"],
        extract_text ((([] : List Paragraph).map remove_icon_spans).map
          Paragraph.text_content)⟩ :: (extract_items []).1 ∧
    (extract_items [⟨none, []⟩]).1 = (extract_items []).1 :=
  extract_missing_href_emits_item ⟨none, "T"⟩ [] [] rfl

/-- C5: round-trip of the redirect URL decoder — for every destination
string `d`, decoding a tracking href whose `u` parameter is the marker
`a1` followed by the URL-safe base64 encoding of `d` yields exactly `d`;
and every href not beginning with the tracking start
`https://www.bing.com/ck/a?` passes through unchanged. -/
theorem redirect_decode_roundtrip (d h : String)
    (hnt : py_startswith h "https://www.bing.com/ck/a?" = false) :
    (decode_redirect_url
        (some ("https://www.bing.com/ck/a?u=a1" ++ urlsafe_b64encode_str d))).1 = some d ∧
    (decode_redirect_url (some h)).1 = some h := by
  constructor
  · have hspecial := b64_encode_no_special (utf8_encode d) (utf8_encode_bytes_lt d)
    have hdata : ("https://www.bing.com/ck/a?u=a1" ++ urlsafe_b64encode_str d).data =
        "https://www.bing.com/ck/a?u=a1".data ++ b64_encode_bytes (utf8_encode d) := by
      rw [String.data_append]
      rfl
    have hne : ("https://www.bing.com/ck/a?u=a1" ++ urlsafe_b64encode_str d) ≠ "" := by
      intro h0
      have h1 := congrArg String.data h0
      rw [hdata] at h1
      simp at h1
    have hstart : py_startswith ("https://www.bing.com/ck/a?u=a1" ++ urlsafe_b64encode_str d)
        "https://www.bing.com/ck/a?" = true := by
      rw [py_startswith, hdata,
        show "https://www.bing.com/ck/a?u=a1".data =
          "https://www.bing.com/ck/a?".data ++ "u=a1".data by decide,
        List.append_assoc]
      exact list_starts_append _ _
    rw [decode_redirect_url, if_pos ⟨hne, hstart⟩]
    rw [hdata, url_query_tracking _ (fun c hc => ⟨(hspecial c hc).1, (hspecial c hc).2.1⟩)]
    rw [parse_qs_u _ (fun c hc =>
      ⟨(hspecial c hc).2.2.1, (hspecial c hc).2.2.2.2, (hspecial c hc).2.2.2.1⟩)]
    rw [show dict_get_qs [("u", [String.mk ('a' :: '1' :: b64_encode_bytes (utf8_encode d))])]
        "u" = some [String.mk ('a' :: '1' :: b64_encode_bytes (utf8_encode d))] by
      simp [dict_get_qs]]
    simp only []
    rw [decode_payload_roundtrip d]
  · rw [decode_redirect_url]
    rw [if_neg (by
      rintro ⟨-, hsw⟩
      rw [hnt] at hsw
      exact absurd hsw (by simp))]

/-- Witness for C5 at the destination `https://example.com/x` and the
non-tracking href `https://example.org/`. -/
theorem redirect_decode_roundtrip_witness :
    (decode_redirect_url
        (some ("https://www.bing.com/ck/a?u=a1" ++
          urlsafe_b64encode_str "https://example.com/x"))).1 = some "https://example.com/x" ∧
    (decode_redirect_url (some "https://example.org/")).1 = some "https://example.org/" :=
  redirect_decode_roundtrip "https://example.com/x" "https://example.org/" (by decide)

/-- C6: a tracking href whose `u` parameter is missing, or whose payload
fails base64 or UTF-8 decoding, is returned unchanged by the redirect
decoder — no exception, and the result item is never dropped (a block
carrying such a href still yields exactly one item). -/
theorem redirect_decode_failure_keeps_url (h : String)
    (hs : py_startswith h "https://www.bing.com/ck/a?" = true)
    (hfail : dict_get_qs (parse_qs (url_query h.data)) "u" = none ∨
      ∃ v rest, dict_get_qs (parse_qs (url_query h.data)) "u" = some (v :: rest) ∧
        decode_payload v = none) :
    (decode_redirect_url (some h)).1 = some h ∧
    ∀ (lc : String) (ps : List Paragraph),
      (extract_items [⟨some ⟨some h, lc⟩, ps⟩]).1.length = 1 := by
  have hne : h ≠ "" := by
    intro h0
    subst h0
    rw [show py_startswith "" "https://www.bing.com/ck/a?" = false by decide] at hs
    exact absurd hs (by simp)
  have hmain : (decode_redirect_url (some h)).1 = some h := by
    rw [decode_redirect_url, if_pos ⟨hne, hs⟩]
    rcases hfail with hnone | ⟨v, rest, hsome, hdec⟩
    · rw [hnone]
    · rw [hsome]
      simp only []
      rw [hdec]
  refine ⟨hmain, ?_⟩
  intro lc ps
  simp [extract_items]

/-- Witness for C6: a tracking href with no `u` parameter, and one whose
payload `a1A` has a base64 remainder of a single character (a
`binascii.Error` in the library). -/
theorem redirect_decode_failure_witness :
    (decode_redirect_url (some "https://www.bing.com/ck/a?spa=1")).1 =
      some "https://www.bing.com/ck/a?spa=1" ∧
    (decode_redirect_url (some "https://www.bing.com/ck/a?u=a1A")).1 =
      some "https://www.bing.com/ck/a?u=a1A" :=
  ⟨(redirect_decode_failure_keeps_url "https://www.bing.com/ck/a?spa=1" (by decide)
      (Or.inl (by decide))).1,
   (redirect_decode_failure_keeps_url "https://www.bing.com/ck/a?u=a1A" (by decide)
      (Or.inr ⟨"a1A", [], by decide, by decide⟩)).1⟩

/-- C3: when a page beyond the last was requested (`p > 1`, banner start
offset differs from the expected `(p-1)*10+1`, equals 1, and the expected
offset exceeds a positive total estimate), `response` discards every
extracted item and returns the empty list. -/
theorem response_beyond_last_page_discards (d : Dom) (p : Int)
    (hb : d.blocks ≠ [])
    (hp : p > 1)
    (hne : ((banner_of d).1 : Int) ≠ page_offset p)
    (hgt : page_offset p > ((banner_of d).2 : Int))
    (hpos : (banner_of d).2 > 0)
    (h1 : (banner_of d).1 = 1) :
    (response d p).1 = [] := by
  obtain ⟨blocks, sbc⟩ := d
  rcases blocks with _ | ⟨b, bs⟩
  · exact absurd rfl hb
  · simp only [response]
    rw [if_pos ⟨hp, hne⟩, if_pos ⟨hgt, hpos, h1⟩]

/-- C4: on any other offset mismatch (`p > 1`, banner start offset
differs from the expected offset, but the beyond-last-page condition does
not hold), `response` keeps every extracted item, appends the trailing
count summary, and records only the mismatch warning — no exception. -/
theorem response_mismatch_keeps_items (d : Dom) (p : Int)
    (hb : d.blocks ≠ [])
    (hp : p > 1)
    (hne : ((banner_of d).1 : Int) ≠ page_offset p)
    (hnb : ¬(page_offset p > ((banner_of d).2 : Int) ∧ (banner_of d).2 > 0 ∧
      (banner_of d).1 = 1)) :
    response d p =
      ((extract_items d.blocks).1.map ResponseItem.item ++
          [ResponseItem.summary (banner_of d).2],
        (extract_items d.blocks).2 ++ [warn_mismatch p (page_offset p) (banner_of d).1]) := by
  obtain ⟨blocks, sbc⟩ := d
  rcases blocks with _ | ⟨b, bs⟩
  · exact absurd rfl hb
  · simp only [response]
    rw [if_pos ⟨hp, hne⟩, if_neg hnb]

/-- C2 counterexample: on the beyond-last-page path (page 3 requested,
banner `1-10 of 15 results`), `response` returns a list that does not end
with a `number_of_results` summary — it is empty — so the summary is not
attached on every return path. -/
theorem response_summary_missing_cex :
    ¬ ∃ (l : List ResponseItem) (n : Nat),
      (response ⟨[⟨some ⟨some "http://x", "T"⟩, []⟩], ["1-10 of 15 results"]⟩ 3).1 =
        l ++ [ResponseItem.summary n] := by
  intro hex
  obtain ⟨l, n, hln⟩ := hex
  have hempty :
      (response ⟨[⟨some ⟨some "http://x", "T"⟩, []⟩], ["1-10 of 15 results"]⟩ 3).1 = [] := by
    decide
  rw [hempty] at hln
  simp at hln

/-- C2 (amended): the list `response` returns ends with a trailing
`number_of_results` summary (even when the count is 0) on every return
path except the beyond-last-page invalid path, which returns the empty
list without a summary. -/
theorem response_trailing_summary (d : Dom) (p : Int) :
    ((d.blocks ≠ [] ∧ p > 1 ∧ ((banner_of d).1 : Int) ≠ page_offset p ∧
        page_offset p > ((banner_of d).2 : Int) ∧ (banner_of d).2 > 0 ∧
        (banner_of d).1 = 1) →
      (response d p).1 = []) ∧
    (¬(d.blocks ≠ [] ∧ p > 1 ∧ ((banner_of d).1 : Int) ≠ page_offset p ∧
        page_offset p > ((banner_of d).2 : Int) ∧ (banner_of d).2 > 0 ∧
        (banner_of d).1 = 1) →
      ∃ l nres, (response d p).1 = l ++ [ResponseItem.summary nres]) := by
  obtain ⟨blocks, sbc⟩ := d
  constructor
  · rintro ⟨hb, hp, hne, hgt, hpos, h1⟩
    rcases blocks with _ | ⟨b, bs⟩
    · exact absurd rfl hb
    · simp only [response]
      rw [if_pos ⟨hp, hne⟩, if_pos ⟨hgt, hpos, h1⟩]
  · intro hn
    rcases blocks with _ | ⟨b, bs⟩
    · exact ⟨_, _, rfl⟩
    · simp only [response]
      by_cases hcond : p > 1 ∧ ((banner_of ⟨b :: bs, sbc⟩).1 : Int) ≠ page_offset p
      · have hnb : ¬(page_offset p > ((banner_of ⟨b :: bs, sbc⟩).2 : Int) ∧
            (banner_of ⟨b :: bs, sbc⟩).2 > 0 ∧ (banner_of ⟨b :: bs, sbc⟩).1 = 1) := by
          intro hbey
          exact hn ⟨by simp, hcond.1, hcond.2, hbey.1, hbey.2.1, hbey.2.2⟩
        rw [if_pos hcond, if_neg hnb]
        exact ⟨_, _, rfl⟩
      · rw [if_neg hcond]
        exact ⟨_, _, rfl⟩

/-- C7: for each supported `time_range` value, `request` appends exactly
one filter fragment to the URL — code `1` for day, `2` for week, `3` for
month, and for year a composite window built from
`unixDay = floor(now / 86400)`; for any other non-empty value no fragment
is appended, the unsupported-option warning is recorded, and no error is
raised. -/
theorem time_range_filter_spec (tr : EngineTraits) (now : Nat) (q : String)
    (params : Params) (t : String) (ht : params.time_range = some t) :
    (t = "day" →
      (request tr now q params).1.url =
        some (base_url ++ "?" ++ urlencode (bing_query_params q (params.pageno.getD 1)) ++
          "&filters=ex1:\"ez1\"") ∧
      (request tr now q params).2 = []) ∧
    (t = "week" →
      (request tr now q params).1.url =
        some (base_url ++ "?" ++ urlencode (bing_query_params q (params.pageno.getD 1)) ++
          "&filters=ex1:\"ez2\"") ∧
      (request tr now q params).2 = []) ∧
    (t = "month" →
      (request tr now q params).1.url =
        some (base_url ++ "?" ++ urlencode (bing_query_params q (params.pageno.getD 1)) ++
          "&filters=ex1:\"ez3\"") ∧
      (request tr now q params).2 = []) ∧
    (t = "year" →
      (request tr now q params).1.url =
        some (base_url ++ "?" ++ urlencode (bing_query_params q (params.pageno.getD 1)) ++
          "&filters=ex1:\"ez" ++
          ("5_" ++ toString ((now : Int) / 86400 - 365) ++ "_" ++ toString ((now : Int) / 86400)) ++
          "\"") ∧
      (request tr now q params).2 = []) ∧
    (t ≠ "day" → t ≠ "week" → t ≠ "month" → t ≠ "year" → t ≠ "" →
      (request tr now q params).1.url =
        some (base_url ++ "?" ++ urlencode (bing_query_params q (params.pageno.getD 1))) ∧
      (request tr now q params).2 = ["Unsupported time_range specified: " ++ t]) := by
  refine ⟨?_, ?_, ?_, ?_, ?_⟩
  · intro hd; subst hd
    cases hh : params.headers <;>
      · simp [request, set_bing_cookies, ht, time_ranges_map, dict_get, hh]
        exact str_append_merge _ _ _ _ _ rfl
  · intro hd; subst hd
    cases hh : params.headers <;>
      · simp [request, set_bing_cookies, ht, time_ranges_map, dict_get, hh]
        exact str_append_merge _ _ _ _ _ rfl
  · intro hd; subst hd
    cases hh : params.headers <;>
      · simp [request, set_bing_cookies, ht, time_ranges_map, dict_get, hh]
        exact str_append_merge _ _ _ _ _ rfl
  · intro hd; subst hd
    cases hh : params.headers <;>
      simp [request, set_bing_cookies, ht, time_ranges_map, dict_get, hh]
  · intro h1 h2 h3 h4 h5
    have hget : dict_get (time_ranges_map ((now : Int) / 86400)) t = none := by
      simp [time_ranges_map, dict_get, Ne.symm h1, Ne.symm h2, Ne.symm h3, Ne.symm h4]
    cases hh : params.headers <;>
      simp [request, set_bing_cookies, ht, h5, hget, hh]

/-- Witness for C3 at page 3 against a banner `1-10 of 15 results`. -/
theorem response_beyond_last_page_discards_witness :
    (response ⟨[⟨some ⟨some "http://a", "T"⟩, []⟩], ["1-10 of 15 results"]⟩ 3).1 = [] :=
  response_beyond_last_page_discards
    ⟨[⟨some ⟨some "http://a", "T"⟩, []⟩], ["1-10 of 15 results"]⟩ 3
    (by decide) (by decide) (by decide) (by decide) (by decide) (by decide)

/-- Witness for C4 at page 2 against a banner `5-14 of 100 results`
(start offset 5, expected 11 — a mismatch that is not the
beyond-last-page case). -/
theorem response_mismatch_keeps_items_witness :
    response ⟨[⟨some ⟨some "http://b", "T"⟩, []⟩], ["5-14 of 100 results"]⟩ 2 =
      ((extract_items [⟨some ⟨some "http://b", "T"⟩, []⟩]).1.map ResponseItem.item ++
          [ResponseItem.summary
            (banner_of ⟨[⟨some ⟨some "http://b", "T"⟩, []⟩], ["5-14 of 100 results"]⟩).2],
        (extract_items [⟨some ⟨some "http://b", "T"⟩, []⟩]).2 ++
          [warn_mismatch 2 (page_offset 2)
            (banner_of ⟨[⟨some ⟨some "http://b", "T"⟩, []⟩], ["5-14 of 100 results"]⟩).1]) :=
  response_mismatch_keeps_items
    ⟨[⟨some ⟨some "http://b", "T"⟩, []⟩], ["5-14 of 100 results"]⟩ 2
    (by decide) (by decide) (by decide) (by decide)

/-- Witness for C2 (amended): a zero-block page still ends in a summary,
and a beyond-last-page request yields the empty list. -/
theorem response_trailing_summary_witness :
    (∃ l nres, (response ⟨[], ["x"]⟩ 1).1 = l ++ [ResponseItem.summary nres]) ∧
    (response ⟨[⟨some ⟨some "http://c", "T"⟩, []⟩], ["1-10 of 15 results"]⟩ 4).1 = [] :=
  ⟨(response_trailing_summary ⟨[], ["x"]⟩ 1).2 (by decide),
   (response_trailing_summary
       ⟨[⟨some ⟨some "http://c", "T"⟩, []⟩], ["1-10 of 15 results"]⟩ 4).1 (by decide)⟩

/-- Witness for C7 at the supported range `week` and the unsupported
range `decade`. -/
theorem time_range_filter_spec_witness :
    (request ⟨[], [], "en-us"⟩ 1700000000 "q"
        ⟨some 1, none, some "week", none, none, none⟩).1.url =
      some (base_url ++ "?" ++ urlencode (bing_query_params "q" 1) ++
        "&filters=ex1:\"ez2\"") ∧
    (request ⟨[], [], "en-us"⟩ 1700000000 "q"
        ⟨some 1, none, some "decade", none, none, none⟩).2 =
      ["Unsupported time_range specified: " ++ "decade"] :=
  ⟨((time_range_filter_spec ⟨[], [], "en-us"⟩ 1700000000 "q"
      ⟨some 1, none, some "week", none, none, none⟩ "week" rfl).2.1 rfl).1,
   ((time_range_filter_spec ⟨[], [], "en-us"⟩ 1700000000 "q"
      ⟨some 1, none, some "decade", none, none, none⟩ "decade" rfl).2.2.2.2
     (by decide) (by decide) (by decide) (by decide) (by decide)).2⟩

end BingSearch
